import Mathlib

/-!
DataFlashBlockDevice — verification of the block-device core.

Shallow embedding of the DataFlash block-device driver
(`src/DataFlashBlockDevice.h`).  The repository ships only the class
header: the method bodies (`DataFlashBlockDevice.cpp`) are not under
`src/`, so each operation below is modelled from the specification's
contracts (§4.2–§4.4 of the design document), faithful to its words,
and marked as such in its doc comment.  The header itself contributes
the `bd_error` code values, the field layout (`_device_size`,
`_page_size`, `_block_size`, `_is_initialized`, `_init_ref_count`)
and the documented granularity notes on the accessors.
-/

namespace DataFlash

/-- Modelled from the spec: the error taxonomy of §7 (`Ok`,
`InvalidAddress`, `DeviceError`, `UnsupportedDevice`, `InvalidState`).
The `bd_error` enum in `src/DataFlashBlockDevice.h` (lines 31–34) pins
the integer codes `BD_ERROR_OK = 0` and `BD_ERROR_DEVICE_ERROR = -4001`;
the remaining taxonomy labels are distinct constructors here. -/
inductive BdError where
  | ok
  | deviceError
  | invalidAddress
  | unsupportedDevice
  | invalidState
deriving DecidableEq, Repr

/-- Integer return code of each taxonomy label.  The header's enum
defines exactly two codes: `0` for success and `-4001` for a device
specific error; the spec (§6) requires every failure to surface as a
negative integer code, and the only negative code the header defines
is `-4001`, so every failure label maps to it. -/
def BdError.toCode : BdError → Int
  | .ok => 0
  | .deviceError => -4001
  | .invalidAddress => -4001
  | .unsupportedDevice => -4001
  | .invalidState => -4001

/-- Bus transactions observable by the Bus Transport collaborator (§2):
the one-time geometry probe, write-enable toggles, and the per-page
read / program / erase commands of the Command Sequencer (§4.3). -/
inductive BusEvent where
  | probe
  | writeEnable (enable : Bool)
  | pageRead (page off len : Nat)
  | pageProgram (page off : Nat) (data : List Nat)
  | pageErase (block : Nat)
deriving DecidableEq, Repr

/-- Device state, mirroring the private fields of the header:
`_device_size`, `_page_size`, `_block_size`, `_is_initialized`,
`_init_ref_count`, plus the chip's identifier and its memory array
(the chip content is part of the model so that the read / program /
erase data path can be stated). -/
structure Device where
  device_size : Nat
  page_size : Nat
  block_size : Nat
  is_initialized : Bool
  init_ref_count : Nat
  chip_id : Nat
  mem : List Nat
deriving DecidableEq, Repr

/-- Modelled from the spec: the Geometry Table (§4.1) is "a fixed,
hand-maintained list of known part variants (capacity tiers)"; its
concrete entries are not under `src/`.  Representative capacity tiers
are listed as `(identifier, (total_size, page_size, block_size))`;
per §3 `total_size` is an exact multiple of `page_size`, and per §4.3
the erase granularity is the physical page or a configured multiple of
it (eight pages per erase block here). -/
def geometry_table : List (Nat × Nat × Nat × Nat) :=
  [ (1, (65536, 256, 2048)),
    (2, (131072, 256, 2048)),
    (3, (270336, 264, 2112)),
    (4, (540672, 264, 2112)) ]

/-- Look the chip-reported identifier up in the Geometry Table. -/
def lookupGeometry (id : Nat) : Option (Nat × Nat × Nat) :=
  (geometry_table.find? (fun e => e.1 = id)).map (·.2)

/-- Modelled from the spec: `_translate_address` (declared at
`src/DataFlashBlockDevice.h:212`, body not under `src/`).  Per §4.2,
`translate(linear_addr) -> (page_index, page_offset)` is integer
division / modulo by the physical page size and fails with
`InvalidAddress` if `linear_addr >= total_size`. -/
def _translate_address (dev : Device) (addr : Nat) : Except BdError (Nat × Nat) :=
  if addr < dev.device_size then
    .ok (addr / dev.page_size, addr % dev.page_size)
  else
    .error .invalidAddress

/-- Modelled from the spec: shared validity predicate of §4.4 —
`addr % granularity == 0 && size % granularity == 0 && addr + size <= total_size`. -/
def is_valid (dev : Device) (g addr size : Nat) : Bool :=
  addr % g = 0 && size % g = 0 && addr + size ≤ dev.device_size

/-- Read granularity is one byte (§4.4). -/
def get_read_size (_ : Device) : Nat := 1

/-- Program granularity equals the physical page size (§4.4). -/
def get_program_size (dev : Device) : Nat := dev.page_size

/-- Erase granularity is the erase-block size (§4.4). -/
def get_erase_size (dev : Device) : Nat := dev.block_size

/-- Address-dependent erase size; uniform for this chip family (§4.4). -/
def get_erase_size_at (dev : Device) (_ : Nat) : Nat := dev.block_size

/-- Total size of the underlying device. -/
def size (dev : Device) : Nat := dev.device_size

/-- `is_valid_read` (header line 175): validity at read granularity. -/
def is_valid_read (dev : Device) (addr sz : Nat) : Bool :=
  is_valid dev (get_read_size dev) addr sz

/-- `is_valid_program` (header line 183): validity at program granularity. -/
def is_valid_program (dev : Device) (addr sz : Nat) : Bool :=
  is_valid dev (get_program_size dev) addr sz

/-- `is_valid_erase` (header line 191): validity at erase granularity. -/
def is_valid_erase (dev : Device) (addr sz : Nat) : Bool :=
  is_valid dev (get_erase_size dev) addr sz

/-- Read `n` consecutive bytes of the chip array starting at linear
address `a` (out-of-range cells read as `0`). -/
def readBytes (mem : List Nat) : Nat → Nat → List Nat
  | _, 0 => []
  | a, n + 1 => mem.getD a 0 :: readBytes mem (a + 1) n

/-- Write the bytes of `data` to consecutive linear addresses starting
at `a` (writes beyond the end of `mem` are dropped, as `List.set` is
the identity out of range). -/
def writeBytes (mem : List Nat) : Nat → List Nat → List Nat
  | _, [] => mem
  | a, b :: rest => writeBytes (mem.set a b) (a + 1) rest

/-- Modelled from the spec: the multi-page read loop of §4.2/§4.4
(body of `read` not under `src/`).  Each iteration translates the
current address, reads up to the end of the physical page
("how many bytes of a page remain before crossing a page boundary"),
and issues one page-read bus transaction per page segment.  The fuel
equals the remaining size, which bounds the number of iterations since
every iteration consumes at least one byte. -/
def readAux (ps : Nat) (mem : List Nat) : Nat → Nat → Nat → List Nat × List BusEvent
  | 0, _, _ => ([], [])
  | fuel + 1, addr, sz =>
    if sz = 0 then ([], [])
    else
      let o := addr % ps
      let chunk := min sz (ps - o)
      let rest := readAux ps mem fuel (addr + chunk) (sz - chunk)
      (readBytes mem addr chunk ++ rest.1, .pageRead (addr / ps) o chunk :: rest.2)

/-- Modelled from the spec: the multi-page program loop of §4.3/§4.4
(body of `program` not under `src/`).  One page-program bus sequence
per page segment, each writing the corresponding chunk of the caller's
buffer into the chip array. -/
def programAux (ps : Nat) : Nat → List Nat → List Nat → Nat → Nat → List Nat × List BusEvent
  | 0, mem, _, _, _ => (mem, [])
  | fuel + 1, mem, buf, addr, sz =>
    if sz = 0 then (mem, [])
    else
      let o := addr % ps
      let chunk := min sz (ps - o)
      let data := buf.take chunk
      let rest := programAux ps fuel (writeBytes mem addr data) (buf.drop chunk) (addr + chunk) (sz - chunk)
      (rest.1, .pageProgram (addr / ps) o data :: rest.2)

/-- Modelled from the spec: the erase loop of §4.3/§4.4 (body of
`erase` not under `src/`): one page-erase command per covered erase
block.  The spec leaves erased content undefined until programmed;
it is modelled as the flash idle value `0xFF`. -/
def eraseAux (bs : Nat) : Nat → List Nat → Nat → Nat → List Nat × List BusEvent
  | 0, mem, _, _ => (mem, [])
  | fuel + 1, mem, addr, sz =>
    if sz = 0 then (mem, [])
    else
      let chunk := min sz (bs - addr % bs)
      let rest := eraseAux bs fuel (writeBytes mem addr (List.replicate chunk 255)) (addr + chunk) (sz - chunk)
      (rest.1, .pageErase (addr / bs) :: rest.2)

/-- Modelled from the spec: `read` (§4.4; declared at header line 112,
body not under `src/`).  `Ready` is the only state accepting the
operation (`InvalidState` otherwise, §4.4 state machine); validation
runs before any bus transaction (`InvalidAddress`, §7); then the
request is split into one page-read per physical page segment.
Returns (new state, result, data, bus trace); the model is bus-fault
free, so the `DeviceError` path of a failing transport is not taken. -/
def read (dev : Device) (addr sz : Nat) : Device × BdError × List Nat × List BusEvent :=
  if ¬ dev.is_initialized then (dev, .invalidState, [], [])
  else if ¬ is_valid_read dev addr sz then (dev, .invalidAddress, [], [])
  else
    let r := readAux dev.page_size dev.mem sz addr sz
    (dev, .ok, r.1, r.2)

/-- Modelled from the spec: `program` (§4.4; declared at header line
123, body not under `src/`).  After the state and validity checks, the
facade "asserts write-enable once, issues one Page-program per page
segment, deasserts write-enable" (§4.4). -/
def program (dev : Device) (buf : List Nat) (addr sz : Nat) : Device × BdError × List BusEvent :=
  if ¬ dev.is_initialized then (dev, .invalidState, [])
  else if ¬ is_valid_program dev addr sz then (dev, .invalidAddress, [])
  else
    let r := programAux dev.page_size sz dev.mem buf addr sz
    ({ dev with mem := r.1 }, .ok,
      .writeEnable true :: r.2 ++ [.writeEnable false])

/-- Modelled from the spec: `erase` (§4.4; declared at header line
133, body not under `src/`).  Write-enable wraps the whole mutating
call (§4.3); one page-erase command per covered erase block. -/
def erase (dev : Device) (addr sz : Nat) : Device × BdError × List BusEvent :=
  if ¬ dev.is_initialized then (dev, .invalidState, [])
  else if ¬ is_valid_erase dev addr sz then (dev, .invalidAddress, [])
  else
    let r := eraseAux dev.block_size sz dev.mem addr sz
    ({ dev with mem := r.1 }, .ok,
      .writeEnable true :: r.2 ++ [.writeEnable false])

/-- Modelled from the spec: `init` (§4.4; declared at header line 97,
body not under `src/`).  The first caller (ref count 0→1) performs the
one-time bus/geometry probe and matches the chip identifier against
the Geometry Table (`UnsupportedDevice` if unknown, §4.1); subsequent
calls only increment the reference count and return `Ok`. -/
def init (dev : Device) : Device × BdError × List BusEvent :=
  if dev.init_ref_count ≠ 0 then
    ({ dev with init_ref_count := dev.init_ref_count + 1 }, .ok, [])
  else
    match lookupGeometry dev.chip_id with
    | some g =>
      ({ dev with
          is_initialized := true
          init_ref_count := 1
          device_size := g.1
          page_size := g.2.1
          block_size := g.2.2 }, .ok, [.probe])
    | none => (dev, .unsupportedDevice, [.probe])

/-- Modelled from the spec: `deinit` (§4.4; declared at header line
103, body not under `src/`).  Decrements the reference count, tearing
down only on 1→0; calling `deinit` more times than `init` is a
contract violation (`InvalidState`). -/
def deinit (dev : Device) : Device × BdError × List BusEvent :=
  if dev.init_ref_count = 0 then (dev, .invalidState, [])
  else if dev.init_ref_count = 1 then
    ({ dev with init_ref_count := 0, is_initialized := false }, .ok, [])
  else
    ({ dev with init_ref_count := dev.init_ref_count - 1 }, .ok, [])

/-- Iterate `init` `n` times, accumulating results and bus traces. -/
def initN : Nat → Device → Device × List BdError × List BusEvent
  | 0, dev => (dev, [], [])
  | n + 1, dev =>
    let r := init dev
    let rest := initN n r.1
    (rest.1, r.2.1 :: rest.2.1, r.2.2 ++ rest.2.2)

/-- Iterate `deinit` `n` times, accumulating results and bus traces. -/
def deinitN : Nat → Device → Device × List BdError × List BusEvent
  | 0, dev => (dev, [], [])
  | n + 1, dev =>
    let r := deinit dev
    let rest := deinitN n r.1
    (rest.1, r.2.1 :: rest.2.1, r.2.2 ++ rest.2.2)

/-- Modelled from the spec: `_sync` (§4.3; declared at header line
210, body not under `src/`): "repeatedly issue status reads until the
busy bit clears", with no internal timeout.  `busy t` is the busy bit
the chip reports at the `t`-th status poll.  The source loop has no
bound; the `fuel` argument is only the observation depth of the model:
the loop reaches the `t`-th poll once `fuel > t`, so the source loop
terminates exactly when some fuel makes this function succeed, and the
returned value counts the polls issued before the busy bit cleared. -/
def syncPolls (busy : Nat → Bool) : Nat → Option Nat
  | 0 => none
  | fuel + 1 =>
    if busy 0 then (syncPolls (fun t => busy (t + 1)) fuel).map (· + 1)
    else some 0

/-- Does a bus event carry a page-program command? -/
def BusEvent.isPageProgram : BusEvent → Bool
  | .pageProgram _ _ _ => true
  | _ => false

/-- A small initialized device used to instantiate the theorems on
concrete inputs: 16 bytes, 2-byte physical pages, 4-byte erase blocks,
chip array initially all `0xFF`. -/
def devReady : Device :=
  { device_size := 16, page_size := 2, block_size := 4,
    is_initialized := true, init_ref_count := 1, chip_id := 1,
    mem := List.replicate 16 255 }

/-- A freshly constructed (uninitialized) device whose chip reports
identifier `1`, which the Geometry Table supports. -/
def devFresh : Device :=
  { device_size := 0, page_size := 0, block_size := 0,
    is_initialized := false, init_ref_count := 0, chip_id := 1,
    mem := List.replicate 16 255 }

/-! ## Helper lemmas about the chip-array primitives -/

theorem writeBytes_length (data : List Nat) :
    ∀ (mem : List Nat) (a : Nat), (writeBytes mem a data).length = mem.length := by
  induction data with
  | nil => intro mem a; rfl
  | cons b rest ih =>
    intro mem a
    simp [writeBytes, ih]

theorem writeBytes_getD_lt (data : List Nat) :
    ∀ (mem : List Nat) (a i : Nat), i < a →
      (writeBytes mem a data).getD i 0 = mem.getD i 0 := by
  induction data with
  | nil => intro mem a i _; rfl
  | cons b rest ih =>
    intro mem a i hi
    show (writeBytes (mem.set a b) (a + 1) rest).getD i 0 = mem.getD i 0
    rw [ih (mem.set a b) (a + 1) i (Nat.lt_succ_of_lt hi)]
    simp [List.getD_eq_getElem?_getD, List.getElem?_set_ne (Nat.ne_of_gt hi)]

theorem writeBytes_append (l1 l2 : List Nat) :
    ∀ (mem : List Nat) (a : Nat),
      writeBytes mem a (l1 ++ l2) =
        writeBytes (writeBytes mem a l1) (a + l1.length) l2 := by
  induction l1 with
  | nil => intro mem a; simp [writeBytes]
  | cons b rest ih =>
    intro mem a
    show writeBytes (mem.set a b) (a + 1) (rest ++ l2) = _
    rw [ih (mem.set a b) (a + 1)]
    simp [writeBytes]
    congr 1
    omega

theorem readBytes_append (mem : List Nat) :
    ∀ (m n a : Nat),
      readBytes mem a (m + n) = readBytes mem a m ++ readBytes mem (a + m) n := by
  intro m
  induction m with
  | zero => intro n a; simp [readBytes]
  | succ m ih =>
    intro n a
    have h : m + 1 + n = (m + n) + 1 := by omega
    rw [h]
    show mem.getD a 0 :: readBytes mem (a + 1) (m + n) = _
    rw [ih n (a + 1)]
    show _ = (mem.getD a 0 :: readBytes mem (a + 1) m) ++ readBytes mem (a + (m + 1)) n
    simp only [List.cons_append]
    rw [show a + (m + 1) = a + 1 + m from by omega]

theorem readBytes_writeBytes (data : List Nat) :
    ∀ (mem : List Nat) (a : Nat), a + data.length ≤ mem.length →
      readBytes (writeBytes mem a data) a data.length = data := by
  induction data with
  | nil => intro mem a _; rfl
  | cons b rest ih =>
    intro mem a hb
    show readBytes (writeBytes (mem.set a b) (a + 1) rest) a (rest.length + 1) = b :: rest
    show (writeBytes (mem.set a b) (a + 1) rest).getD a 0 ::
        readBytes (writeBytes (mem.set a b) (a + 1) rest) (a + 1) rest.length = b :: rest
    have hb' : a + (rest.length + 1) ≤ mem.length := by
      simpa [List.length_cons] using hb
    have ha : a < mem.length := by omega
    rw [writeBytes_getD_lt rest (mem.set a b) (a + 1) a (Nat.lt_succ_self a)]
    rw [ih (mem.set a b) (a + 1) (by simp only [List.length_set]; omega)]
    simp [List.getD_eq_getElem?_getD, List.getElem?_set_self ha]

/-! ## Helper lemmas about the per-page loops -/

theorem readAux_data (ps : Nat) (mem : List Nat) (hps : 0 < ps) :
    ∀ (fuel a sz : Nat), sz ≤ fuel →
      (readAux ps mem fuel a sz).1 = readBytes mem a sz := by
  intro fuel
  induction fuel with
  | zero =>
    intro a sz hsz
    have : sz = 0 := Nat.le_zero.mp hsz
    subst this; rfl
  | succ fuel ih =>
    intro a sz hsz
    by_cases h0 : sz = 0
    · subst h0; rfl
    · have hmod : a % ps < ps := Nat.mod_lt a hps
      have hc1 : 1 ≤ min sz (ps - a % ps) := by omega
      have hcs : min sz (ps - a % ps) ≤ sz := Nat.min_le_left _ _
      show (if sz = 0 then _ else _ : List Nat × List BusEvent).1 = _
      rw [if_neg h0]
      show readBytes mem a (min sz (ps - a % ps)) ++
          (readAux ps mem fuel (a + min sz (ps - a % ps)) (sz - min sz (ps - a % ps))).1 = _
      rw [ih _ _ (by omega)]
      rw [← readBytes_append mem (min sz (ps - a % ps)) (sz - min sz (ps - a % ps)) a]
      rw [Nat.add_sub_cancel' hcs]

theorem programAux_mem (ps : Nat) (hps : 0 < ps) :
    ∀ (fuel : Nat) (mem buf : List Nat) (a sz : Nat), sz ≤ fuel → sz ≤ buf.length →
      (programAux ps fuel mem buf a sz).1 = writeBytes mem a (buf.take sz) := by
  intro fuel
  induction fuel with
  | zero =>
    intro mem buf a sz hsz _
    have : sz = 0 := Nat.le_zero.mp hsz
    subst this; rfl
  | succ fuel ih =>
    intro mem buf a sz hsz hbuf
    by_cases h0 : sz = 0
    · subst h0; rfl
    · have hmod : a % ps < ps := Nat.mod_lt a hps
      have hc1 : 1 ≤ min sz (ps - a % ps) :=
        Nat.le_min.mpr ⟨Nat.pos_of_ne_zero h0, by omega⟩
      have hcs : min sz (ps - a % ps) ≤ sz := Nat.min_le_left _ _
      generalize hc : min sz (ps - a % ps) = c at hc1 hcs
      show (if sz = 0 then _ else _ : List Nat × List BusEvent).1 = _
      rw [if_neg h0]
      show (programAux ps fuel (writeBytes mem a (buf.take (min sz (ps - a % ps))))
          (buf.drop (min sz (ps - a % ps))) (a + min sz (ps - a % ps))
          (sz - min sz (ps - a % ps))).1 = _
      rw [hc]
      show (programAux ps fuel (writeBytes mem a (buf.take c))
          (buf.drop c) (a + c) (sz - c)).1 = _
      rw [ih _ _ _ _ (by omega) (by simp only [List.length_drop]; omega)]
      have key : buf.take sz = buf.take c ++ (buf.drop c).take (sz - c) := by
        conv_lhs => rw [show sz = c + (sz - c) from by omega]
        exact List.take_add buf c (sz - c)
      rw [key, writeBytes_append, List.length_take,
        Nat.min_eq_left (le_trans hcs hbuf)]

theorem programAux_events (ps : Nat) (hps : 0 < ps) :
    ∀ (fuel : Nat) (mem buf : List Nat) (a sz : Nat),
      sz ≤ fuel → a % ps = 0 → sz % ps = 0 →
      ((programAux ps fuel mem buf a sz).2.length = sz / ps ∧
       ∀ e ∈ (programAux ps fuel mem buf a sz).2, BusEvent.isPageProgram e = true) := by
  intro fuel
  induction fuel with
  | zero =>
    intro mem buf a sz hsz _ _
    have : sz = 0 := Nat.le_zero.mp hsz
    subst this
    exact ⟨by simp [programAux], by intro e he; simp [programAux] at he⟩
  | succ fuel ih =>
    intro mem buf a sz hsz ha hmod
    by_cases h0 : sz = 0
    · subst h0
      exact ⟨by simp [programAux], by intro e he; simp [programAux] at he⟩
    · have hdvd : ps ∣ sz := Nat.dvd_of_mod_eq_zero hmod
      have hle : ps ≤ sz := Nat.le_of_dvd (Nat.pos_of_ne_zero h0) hdvd
      have hchunk : min sz (ps - a % ps) = ps := by
        rw [ha]; simp; omega
      have hsz1 : 1 ≤ sz := Nat.pos_of_ne_zero h0
      have hstep := ih (writeBytes mem a (buf.take (min sz (ps - a % ps))))
        (buf.drop (min sz (ps - a % ps))) (a + min sz (ps - a % ps))
        (sz - min sz (ps - a % ps)) (by rw [hchunk]; omega)
        (by rw [hchunk, Nat.add_mod_right]; exact ha)
        (by rw [hchunk]; exact Nat.mod_eq_zero_of_dvd (Nat.dvd_sub' hdvd dvd_rfl))
      constructor
      · show (if sz = 0 then _ else _ : List Nat × List BusEvent).2.length = _
        rw [if_neg h0]
        show ((BusEvent.pageProgram (a / ps) (a % ps) (buf.take (min sz (ps - a % ps)))) ::
            (programAux ps fuel _ _ _ _).2).length = _
        rw [List.length_cons, hstep.1, hchunk]
        rw [Nat.div_eq_sub_div hps hle]
      · intro e he
        show BusEvent.isPageProgram e = true
        rw [show (programAux ps (fuel + 1) mem buf a sz) =
          if sz = 0 then (mem, []) else _ from rfl, if_neg h0] at he
        simp only [List.mem_cons] at he
        rcases he with he | he
        · subst he; rfl
        · exact hstep.2 e he

theorem eraseAux_mem_length (bs : Nat) :
    ∀ (fuel : Nat) (mem : List Nat) (a sz : Nat),
      ((eraseAux bs fuel mem a sz).1).length = mem.length := by
  intro fuel
  induction fuel with
  | zero => intro mem a sz; rfl
  | succ fuel ih =>
    intro mem a sz
    by_cases h0 : sz = 0
    · subst h0; rfl
    · show (if sz = 0 then _ else _ : List Nat × List BusEvent).1.length = _
      rw [if_neg h0]
      show ((eraseAux bs fuel (writeBytes mem a _) _ _).1).length = _
      rw [ih, writeBytes_length]

/-! ## Helper lemmas about the busy-wait loop and reference counting -/

theorem syncPolls_some_not_busy :
    ∀ (fuel : Nat) (busy : Nat → Bool) (n : Nat),
      syncPolls busy fuel = some n → busy n = false := by
  intro fuel
  induction fuel with
  | zero => intro busy n h; exact absurd h (by simp [syncPolls])
  | succ fuel ih =>
    intro busy n h
    simp only [syncPolls] at h
    by_cases h0 : busy 0
    · rw [if_pos h0] at h
      obtain ⟨m, hm, hn⟩ := Option.map_eq_some'.mp h
      subst hn
      exact ih (fun t => busy (t + 1)) m hm
    · rw [if_neg h0] at h
      have : n = 0 := by injection h; omega
      subst this
      exact Bool.not_eq_true _ ▸ (by simpa using h0)

theorem not_busy_syncPolls :
    ∀ (t : Nat) (busy : Nat → Bool), busy t = false →
      ∃ n, syncPolls busy (t + 1) = some n := by
  intro t
  induction t with
  | zero => intro busy h; exact ⟨0, by simp [syncPolls, h]⟩
  | succ t ih =>
    intro busy h
    by_cases h0 : busy 0
    · obtain ⟨m, hm⟩ := ih (fun u => busy (u + 1)) h
      refine ⟨m + 1, ?_⟩
      show (if busy 0 = true then
          (syncPolls (fun u => busy (u + 1)) (t + 1)).map (· + 1)
        else some 0) = some (m + 1)
      rw [if_pos h0, hm]
      rfl
    · exact ⟨0, by simp [syncPolls, h0]⟩

theorem init_pos (dev : Device) (h : dev.init_ref_count ≠ 0) :
    init dev = ({ dev with init_ref_count := dev.init_ref_count + 1 }, .ok, []) := by
  simp [init, h]

theorem initN_pos :
    ∀ (n : Nat) (dev : Device), dev.init_ref_count ≠ 0 →
      initN n dev = ({ dev with init_ref_count := dev.init_ref_count + n },
        List.replicate n .ok, []) := by
  intro n
  induction n with
  | zero =>
    intro dev h
    show (dev, [], []) = _
    cases dev
    rfl
  | succ n ih =>
    intro dev h
    show (let r := init dev
          let rest := initN n r.1
          (rest.1, r.2.1 :: rest.2.1, r.2.2 ++ rest.2.2)) = _
    rw [init_pos dev h]
    show (let rest := initN n { dev with init_ref_count := dev.init_ref_count + 1 }
          (rest.1, BdError.ok :: rest.2.1, [] ++ rest.2.2)) = _
    rw [ih { dev with init_ref_count := dev.init_ref_count + 1 } (by simp)]
    simp [List.replicate_succ]
    omega

theorem deinitN_drain :
    ∀ (n : Nat) (dev : Device), dev.init_ref_count = n + 1 →
      deinitN (n + 1) dev =
        ({ dev with init_ref_count := 0, is_initialized := false },
          List.replicate (n + 1) .ok, []) := by
  intro n
  induction n with
  | zero =>
    intro dev h
    show (let r := deinit dev
          let rest := deinitN 0 r.1
          (rest.1, r.2.1 :: rest.2.1, r.2.2 ++ rest.2.2)) = _
    simp [deinit, h, deinitN, List.replicate_succ]
  | succ n ih =>
    intro dev h
    show (let r := deinit dev
          let rest := deinitN (n + 1) r.1
          (rest.1, r.2.1 :: rest.2.1, r.2.2 ++ rest.2.2)) = _
    have hd : deinit dev = ({ dev with init_ref_count := n + 1 }, .ok, []) := by
      simp [deinit, h]
    rw [hd]
    show (let rest := deinitN (n + 1) { dev with init_ref_count := n + 1 }
          (rest.1, BdError.ok :: rest.2.1, [] ++ rest.2.2)) = _
    rw [ih { dev with init_ref_count := n + 1 } rfl]
    simp [List.replicate_succ]

/-! ## The claims -/

/-- C1: for every linear address `a` in `[0, total_size)`, the address
translation yields a pair `(p, o)` with
`p * physical_page_size + o = a` and `o < physical_page_size`; for
every `a ≥ total_size` the translation fails with `InvalidAddress`. -/
theorem translate_address_correct (dev : Device) (a : Nat)
    (hps : 0 < dev.page_size) :
    (a < dev.device_size →
      ∃ p o, _translate_address dev a = .ok (p, o) ∧
        p * dev.page_size + o = a ∧ o < dev.page_size) ∧
    (dev.device_size ≤ a →
      _translate_address dev a = .error .invalidAddress) := by
  constructor
  · intro h
    refine ⟨a / dev.page_size, a % dev.page_size, ?_, ?_, Nat.mod_lt a hps⟩
    · simp [_translate_address, h]
    · rw [Nat.mul_comm]
      exact Nat.div_add_mod a dev.page_size
  · intro h
    simp [_translate_address, Nat.not_lt.mpr h]

/-- Witness for C1 at the concrete device `devReady` (16 bytes, page
size 2): address 5 translates to page 2, offset 1; address 16 is out
of bounds. -/
theorem translate_address_correct_witness :
    (∃ p o, _translate_address devReady 5 = .ok (p, o) ∧
      p * devReady.page_size + o = 5 ∧ o < devReady.page_size) ∧
    _translate_address devReady 16 = .error .invalidAddress :=
  ⟨(translate_address_correct devReady 5 (by decide)).1 (by decide),
   (translate_address_correct devReady 16 (by decide)).2 (by decide)⟩

/-- C2: each of `is_valid_read`, `is_valid_program`, `is_valid_erase`
returns true iff the address and size are multiples of the operation's
granularity (read: one byte; program: the physical page size; erase:
the erase-block size) and the range lies within the device. -/
theorem is_valid_ops_spec (dev : Device) (a s : Nat) :
    (is_valid_read dev a s = true ↔
      a % get_read_size dev = 0 ∧ s % get_read_size dev = 0 ∧ a + s ≤ size dev) ∧
    (is_valid_program dev a s = true ↔
      a % get_program_size dev = 0 ∧ s % get_program_size dev = 0 ∧ a + s ≤ size dev) ∧
    (is_valid_erase dev a s = true ↔
      a % get_erase_size dev = 0 ∧ s % get_erase_size dev = 0 ∧ a + s ≤ size dev) := by
  refine ⟨?_, ?_, ?_⟩ <;>
    simp [is_valid_read, is_valid_program, is_valid_erase, is_valid, size,
      get_read_size, get_program_size, get_erase_size, Bool.and_eq_true,
      decide_eq_true_eq, and_assoc]

/-- C3: an address/size pair that violates the corresponding validity
check makes `read`, `program` and `erase` return `InvalidAddress`
with an empty bus trace and the device state unchanged. -/
theorem invalid_ops_no_bus (dev : Device) (buf : List Nat) (a s : Nat)
    (hinit : dev.is_initialized = true) :
    (is_valid_read dev a s = false →
      read dev a s = (dev, .invalidAddress, [], [])) ∧
    (is_valid_program dev a s = false →
      program dev buf a s = (dev, .invalidAddress, [])) ∧
    (is_valid_erase dev a s = false →
      erase dev a s = (dev, .invalidAddress, [])) := by
  refine ⟨fun hv => ?_, fun hv => ?_, fun hv => ?_⟩ <;>
    simp [read, program, erase, hinit, hv]

/-- Witness for C3: on `devReady`, an out-of-bounds read, a misaligned
program and a misaligned erase all fail with `InvalidAddress`, no bus
events, state unchanged. -/
theorem invalid_ops_no_bus_witness :
    read devReady 0 17 = (devReady, .invalidAddress, [], []) ∧
    program devReady [0] 1 2 = (devReady, .invalidAddress, []) ∧
    erase devReady 2 4 = (devReady, .invalidAddress, []) :=
  ⟨(invalid_ops_no_bus devReady [0] 0 17 rfl).1 (by decide),
   (invalid_ops_no_bus devReady [0] 1 2 rfl).2.1 (by decide),
   (invalid_ops_no_bus devReady [0] 2 4 rfl).2.2 (by decide)⟩

/-- C4: a valid `program` call spanning `k` physical pages issues
exactly `k` page-program bus sequences, with write-enable asserted
exactly once before the first segment and deasserted exactly once
after the last, not once per page. -/
theorem program_write_enable_batching (dev : Device) (buf : List Nat) (a s k : Nat)
    (hinit : dev.is_initialized = true)
    (hps : 0 < dev.page_size)
    (hv : is_valid_program dev a s = true)
    (hk : s = k * dev.page_size) :
    ∃ segs, (program dev buf a s).2.2 =
        .writeEnable true :: segs ++ [.writeEnable false] ∧
      segs.length = k ∧
      ∀ e ∈ segs, BusEvent.isPageProgram e = true := by
  have hv' : a % dev.page_size = 0 ∧ s % dev.page_size = 0 ∧ a + s ≤ dev.device_size := by
    simpa [is_valid_program, is_valid, get_program_size, Bool.and_eq_true,
      decide_eq_true_eq, and_assoc] using hv
  have hev := programAux_events dev.page_size hps s dev.mem buf a s le_rfl hv'.1 hv'.2.1
  refine ⟨(programAux dev.page_size s dev.mem buf a s).2, ?_, ?_, hev.2⟩
  · simp [program, hinit, hv]
  · rw [hev.1, hk, Nat.mul_div_cancel k hps]

/-- Witness for C4: on `devReady` (page size 2), programming 4 bytes
at address 0 spans 2 pages and produces exactly 2 page-program
sequences inside one write-enable / write-disable pair. -/
theorem program_write_enable_batching_witness :
    ∃ segs, (program devReady [1, 2, 3, 4] 0 4).2.2 =
        .writeEnable true :: segs ++ [.writeEnable false] ∧
      segs.length = 2 ∧
      ∀ e ∈ segs, BusEvent.isPageProgram e = true :=
  program_write_enable_batching devReady [1, 2, 3, 4] 0 4 2
    rfl (by decide) (by decide) (by decide)

/-- C5: for an erase-block-aligned address `a` and a data pattern `P`
covering exactly `k` erase granules within bounds, the sequence
`erase(a, |P|)`; `program(P, a, |P|)`; `read(a, |P|)` succeeds and the
read buffer equals `P`. -/
theorem erase_program_read_roundtrip (dev : Device) (a k : Nat) (P : List Nat)
    (hinit : dev.is_initialized = true)
    (hps : 0 < dev.page_size)
    (hdvd : dev.page_size ∣ dev.block_size)
    (hmem : dev.device_size ≤ dev.mem.length)
    (ha : a % dev.block_size = 0)
    (hsize : P.length = k * dev.block_size)
    (hbound : a + P.length ≤ dev.device_size) :
    (erase dev a P.length).2.1 = .ok ∧
    (program (erase dev a P.length).1 P a P.length).2.1 = .ok ∧
    (read (program (erase dev a P.length).1 P a P.length).1 a P.length).2.1 = .ok ∧
    (read (program (erase dev a P.length).1 P a P.length).1 a P.length).2.2.1 = P := by
  have hPmod : P.length % dev.block_size = 0 := by
    rw [hsize]; exact Nat.mul_mod_left k _
  have haps : a % dev.page_size = 0 :=
    Nat.mod_eq_zero_of_dvd (dvd_trans hdvd (Nat.dvd_of_mod_eq_zero ha))
  have hPps : P.length % dev.page_size = 0 :=
    Nat.mod_eq_zero_of_dvd (dvd_trans hdvd (Nat.dvd_of_mod_eq_zero hPmod))
  have hvE : is_valid_erase dev a P.length = true := by
    simp only [is_valid_erase, is_valid, get_erase_size, Bool.and_eq_true,
      decide_eq_true_eq]
    exact ⟨⟨ha, hPmod⟩, hbound⟩
  have hE : erase dev a P.length =
      ({ dev with
          is_initialized := true,
          mem := (eraseAux dev.block_size P.length dev.mem a P.length).1 },
        .ok, .writeEnable true ::
          (eraseAux dev.block_size P.length dev.mem a P.length).2 ++
          [.writeEnable false]) := by
    simp [erase, hinit, hvE]
  have hvP : is_valid_program
      { dev with
        is_initialized := true,
        mem := (eraseAux dev.block_size P.length dev.mem a P.length).1 } a P.length
      = true := by
    simp only [is_valid_program, is_valid, get_program_size, Bool.and_eq_true,
      decide_eq_true_eq]
    exact ⟨⟨haps, hPps⟩, hbound⟩
  have hmemP : (programAux dev.page_size P.length
      (eraseAux dev.block_size P.length dev.mem a P.length).1 P a P.length).1 =
      writeBytes (eraseAux dev.block_size P.length dev.mem a P.length).1 a P := by
    rw [programAux_mem dev.page_size hps P.length _ P a P.length le_rfl le_rfl,
      List.take_length]
  have hP : program (erase dev a P.length).1 P a P.length =
      ({ dev with
          is_initialized := true,
          mem := writeBytes (eraseAux dev.block_size P.length dev.mem a P.length).1 a P },
        .ok, .writeEnable true ::
          (programAux dev.page_size P.length
            (eraseAux dev.block_size P.length dev.mem a P.length).1 P a P.length).2 ++
          [.writeEnable false]) := by
    rw [hE]
    simp [program, hvP, hmemP]
  have hvR : is_valid_read
      { dev with
        is_initialized := true,
        mem := writeBytes (eraseAux dev.block_size P.length dev.mem a P.length).1 a P }
      a P.length = true := by
    simp only [is_valid_read, is_valid, get_read_size, Bool.and_eq_true,
      decide_eq_true_eq]
    exact ⟨⟨Nat.mod_one a, Nat.mod_one P.length⟩, hbound⟩
  have hlen : a + P.length ≤
      ((eraseAux dev.block_size P.length dev.mem a P.length).1).length := by
    rw [eraseAux_mem_length]
    omega
  have hdata := readAux_data dev.page_size
    (writeBytes (eraseAux dev.block_size P.length dev.mem a P.length).1 a P)
    hps P.length a P.length le_rfl
  refine ⟨by rw [hE], by rw [hP], ?_, ?_⟩
  · rw [hP]
    simp [read, hvR]
  · rw [hP]
    simp only [read, hvR, Bool.not_eq_true, if_neg, Bool.false_eq_true,
      not_false_eq_true, if_false, ite_false, ite_true]
    simp [hdata]
    exact readBytes_writeBytes P _ a hlen

/-- Witness for C5: on `devReady` (erase block 4), erasing, programming
and reading back 4 bytes at address 4 round-trips the pattern. -/
theorem erase_program_read_roundtrip_witness :
    (read (program (erase devReady 4 4).1 [7, 8, 9, 10] 4 4).1 4 4).2.2.1
      = [7, 8, 9, 10] :=
  (erase_program_read_roundtrip devReady 4 1 [7, 8, 9, 10]
    rfl (by decide) (by decide) (by decide) (by decide) (by decide) (by decide)).2.2.2

/-- C6: calling `init` N times followed by `deinit` N times leaves the
device `Uninitialized` with a zero reference count, exactly one probe
transaction occurs regardless of N, every call returns `Ok`, and init
calls after the first only increment the reference count. -/
theorem init_deinit_balanced (dev : Device) (g : Nat × Nat × Nat) (n : Nat)
    (h0 : dev.init_ref_count = 0)
    (hg : lookupGeometry dev.chip_id = some g) :
    (deinitN (n + 1) (initN (n + 1) dev).1).1.is_initialized = false ∧
    (deinitN (n + 1) (initN (n + 1) dev).1).1.init_ref_count = 0 ∧
    ((initN (n + 1) dev).2.2 ++
      (deinitN (n + 1) (initN (n + 1) dev).1).2.2).count .probe = 1 ∧
    (∀ e ∈ (initN (n + 1) dev).2.1, e = .ok) ∧
    (∀ e ∈ (deinitN (n + 1) (initN (n + 1) dev).1).2.1, e = .ok) ∧
    (∀ d : Device, d.init_ref_count ≠ 0 →
      init d = ({ d with init_ref_count := d.init_ref_count + 1 }, .ok, [])) := by
  have hfirst : init dev =
      ({ dev with
          is_initialized := true, init_ref_count := 1,
          device_size := g.1, page_size := g.2.1, block_size := g.2.2 },
        .ok, [.probe]) := by
    simp [init, h0, hg]
  have hN : initN (n + 1) dev =
      ({ dev with
          is_initialized := true, init_ref_count := 1 + n,
          device_size := g.1, page_size := g.2.1, block_size := g.2.2 },
        .ok :: List.replicate n .ok, [.probe]) := by
    show (let r := init dev
          let rest := initN n r.1
          (rest.1, r.2.1 :: rest.2.1, r.2.2 ++ rest.2.2)) = _
    rw [hfirst]
    show (let rest := initN n { dev with
            is_initialized := true, init_ref_count := 1,
            device_size := g.1, page_size := g.2.1, block_size := g.2.2 }
          (rest.1, BdError.ok :: rest.2.1, [BusEvent.probe] ++ rest.2.2)) = _
    rw [initN_pos n _ (by simp)]
    simp
  have hD : deinitN (n + 1) (initN (n + 1) dev).1 =
      ({ dev with
          is_initialized := false, init_ref_count := 0,
          device_size := g.1, page_size := g.2.1, block_size := g.2.2 },
        List.replicate (n + 1) .ok, []) := by
    rw [hN]
    rw [deinitN_drain n _ (by simp [Nat.add_comm])]
  refine ⟨by rw [hD], by rw [hD], ?_, ?_, ?_, init_pos⟩
  · rw [hD, hN]
    rfl
  · rw [hN]
    intro e he
    simp only [List.mem_cons, List.eq_of_mem_replicate] at he
    rcases he with he | he
    · exact he
    · exact List.eq_of_mem_replicate he
  · rw [hD]
    intro e he
    exact List.eq_of_mem_replicate he

/-- Witness for C6: three `init` calls followed by three `deinit`
calls on a fresh device leave it uninitialized with a single probe on
the combined bus trace. -/
theorem init_deinit_balanced_witness :
    (deinitN 3 (initN 3 devFresh).1).1.is_initialized = false ∧
    (deinitN 3 (initN 3 devFresh).1).1.init_ref_count = 0 ∧
    ((initN 3 devFresh).2.2 ++ (deinitN 3 (initN 3 devFresh).1).2.2).count .probe = 1 := by
  have h := init_deinit_balanced devFresh (65536, 256, 2048) 2 rfl (by decide)
  exact ⟨h.1, h.2.1, h.2.2.1⟩

/-- C7: the busy-wait loop issues status reads until the busy bit
clears, with no internal bound: it terminates (some observation depth
returns a poll count) exactly when the chip eventually reports
not-busy, and an always-busy chip blocks at every depth. -/
theorem sync_terminates_iff_not_busy (busy : Nat → Bool) :
    ((∃ fuel n, syncPolls busy fuel = some n) ↔ (∃ t, busy t = false)) ∧
    ((∀ t, busy t = true) → ∀ fuel, syncPolls busy fuel = none) := by
  constructor
  · constructor
    · rintro ⟨fuel, n, h⟩
      exact ⟨n, syncPolls_some_not_busy fuel busy n h⟩
    · rintro ⟨t, h⟩
      obtain ⟨n, hn⟩ := not_busy_syncPolls t busy h
      exact ⟨t + 1, n, hn⟩
  · intro hall fuel
    cases h : syncPolls busy fuel with
    | none => rfl
    | some n =>
      have := syncPolls_some_not_busy fuel busy n h
      rw [hall n] at this
      exact absurd this (by simp)

/-- Witness for C7: a chip that reports not-busy from the third poll
on makes the loop terminate; evaluating the loop at depth 4 returns
poll count 3. -/
theorem sync_terminates_iff_not_busy_witness :
    (∃ fuel n, syncPolls (fun t => decide (t < 3)) fuel = some n) ∧
    syncPolls (fun t => decide (t < 3)) 4 = some 3 :=
  ⟨(sync_terminates_iff_not_busy (fun t => decide (t < 3))).1.2 ⟨3, by decide⟩,
   by decide⟩

/-- C8: `read`, `program` and `erase` outside the `Ready` state fail
with `InvalidState`, and `deinit` with a zero reference count (more
deinits than inits) fails with `InvalidState`. -/
theorem not_ready_invalid_state (dev : Device) (buf : List Nat) (a s : Nat) :
    (dev.is_initialized = false →
      (read dev a s).2.1 = .invalidState ∧
      (program dev buf a s).2.1 = .invalidState ∧
      (erase dev a s).2.1 = .invalidState) ∧
    (dev.init_ref_count = 0 → (deinit dev).2.1 = .invalidState) := by
  constructor
  · intro h
    refine ⟨?_, ?_, ?_⟩ <;> simp [read, program, erase, h]
  · intro h
    simp [deinit, h]

/-- Witness for C8: on the uninitialized `devFresh` every data
operation and a surplus `deinit` fail with `InvalidState`. -/
theorem not_ready_invalid_state_witness :
    (read devFresh 0 1).2.1 = .invalidState ∧
    (program devFresh [0] 0 1).2.1 = .invalidState ∧
    (erase devFresh 0 1).2.1 = .invalidState ∧
    (deinit devFresh).2.1 = .invalidState := by
  have h := not_ready_invalid_state devFresh [0] 0 1
  exact ⟨(h.1 rfl).1, (h.1 rfl).2.1, (h.1 rfl).2.2, h.2 rfl⟩

/-- C9: every public operation returns the code 0 exactly on `Ok` and
a strictly negative code on failure, with `DeviceError` pinned to
`-4001` by the header's `bd_error` enum. -/
theorem return_code_convention (dev : Device) (buf : List Nat) (a s : Nat) :
    BdError.ok.toCode = 0 ∧
    BdError.deviceError.toCode = -4001 ∧
    (∀ e : BdError, e ≠ .ok → e.toCode < 0) ∧
    (∀ e ∈ [(init dev).2.1, (deinit dev).2.1, (read dev a s).2.1,
        (program dev buf a s).2.1, (erase dev a s).2.1],
      (e = .ok ∧ e.toCode = 0) ∨ (e ≠ .ok ∧ e.toCode < 0)) := by
  refine ⟨rfl, rfl, ?_, ?_⟩
  · intro e he
    cases e with
    | ok => exact absurd rfl he
    | deviceError => decide
    | invalidAddress => decide
    | unsupportedDevice => decide
    | invalidState => decide
  · intro e _
    cases e with
    | ok => exact Or.inl ⟨rfl, rfl⟩
    | deviceError => exact Or.inr ⟨by simp, by decide⟩
    | invalidAddress => exact Or.inr ⟨by simp, by decide⟩
    | unsupportedDevice => exact Or.inr ⟨by simp, by decide⟩
    | invalidState => exact Or.inr ⟨by simp, by decide⟩

/-- Witness for C9: the failure code of an out-of-state read is
negative, and the success code of a valid read is 0. -/
theorem return_code_convention_witness :
    BdError.invalidState.toCode < 0 ∧ BdError.deviceError.toCode = -4001 :=
  ⟨(return_code_convention devFresh [] 0 0).2.2.1 .invalidState (by decide),
   (return_code_convention devFresh [] 0 0).2.1⟩

/-- C10: after a successful `init` from the uninitialized state, the
program size is an exact multiple of the read size and the erase size
(including the per-address variant at every address) is an exact
multiple of the program size. -/
theorem granularity_chain (dev : Device)
    (h0 : dev.init_ref_count = 0)
    (hok : (init dev).2.1 = .ok) :
    get_read_size (init dev).1 ∣ get_program_size (init dev).1 ∧
    get_program_size (init dev).1 ∣ get_erase_size (init dev).1 ∧
    ∀ a, get_program_size (init dev).1 ∣ get_erase_size_at (init dev).1 a := by
  cases hg : lookupGeometry dev.chip_id with
  | none =>
    rw [show init dev = (dev, .unsupportedDevice, [.probe]) from by simp [init, h0, hg]]
      at hok
    exact absurd hok (by simp)
  | some g =>
    have htab : ∀ e ∈ geometry_table, e.2.2.1 ∣ e.2.2.2 := by decide
    have hdvd : g.2.1 ∣ g.2.2 := by
      obtain ⟨e, he, hee⟩ := Option.map_eq_some'.mp hg
      have := htab e (List.mem_of_find?_eq_some he)
      rw [hee] at this
      exact this
    have hd : (init dev).1 =
        { dev with
            is_initialized := true, init_ref_count := 1,
            device_size := g.1, page_size := g.2.1, block_size := g.2.2 } := by
      simp [init, h0, hg]
    rw [hd]
    exact ⟨one_dvd _, hdvd, fun a => hdvd⟩

/-- Witness for C10: initializing the fresh device (chip identifier 1,
geometry 65536/256/2048) yields the divisibility chain 1 ∣ 256 ∣ 2048. -/
theorem granularity_chain_witness :
    get_program_size (init devFresh).1 ∣ get_erase_size (init devFresh).1 :=
  (granularity_chain devFresh rfl (by decide)).2.1

end DataFlash
